import Mathlib

/-!
Verification of the README metadata extractor (`lib/readme-parser.ts`).

The extractor is a pure function of its inputs, so it is embedded as
computable Lean functions over `List Char` (JavaScript strings are modelled
as their character sequences; where JavaScript counts UTF-16 code units we
count them explicitly via `jsLen`).  String-level wrappers with the source's
names (`extractTitle`, `formatRepoName`, `extractDescription`, `parseReadme`)
are provided at the interface.

The regular expressions of the source are embedded with JavaScript's
semantics: `\s` is the ECMAScript white-space class (which contains the line
terminators), `.` matches everything except a line terminator, the `m` flag
anchors `^` at the start of the input and after every line terminator, and
matching is leftmost with greedy backtracking.
-/

namespace ReadmeParser

/-- ECMAScript `\s`: WhiteSpace ∪ LineTerminator, by code point (TAB, LF,
VT, FF, CR, SP, NBSP, OGHAM SP, U+2000..U+200A, LS, PS, NNBSP, MMSP,
IDEOGRAPHIC SP, ZWNBSP). -/
def isJsWhitespace (c : Char) : Bool :=
  let n := c.toNat
  n == 9 || n == 10 || n == 11 || n == 12 || n == 13 || n == 32 ||
  n == 0xA0 || n == 0x1680 || (0x2000 ≤ n && n ≤ 0x200A) ||
  n == 0x2028 || n == 0x2029 || n == 0x202F || n == 0x205F ||
  n == 0x3000 || n == 0xFEFF

/-- ECMAScript LineTerminator, by code point (LF, CR, LS, PS): the
characters `.` does not match and after which the `m`-flag `^` anchors. -/
def isLineTerminator (c : Char) : Bool :=
  let n := c.toNat
  n == 10 || n == 13 || n == 0x2028 || n == 0x2029

/-- JavaScript `String.prototype.length` counts UTF-16 code units. -/
def jsLen (cs : List Char) : Nat :=
  cs.foldr (fun c n => (if 0x10000 ≤ c.toNat then 2 else 1) + n) 0

/-- JavaScript `String.prototype.trim`: strip white space from both ends. -/
def jsTrim (cs : List Char) : List Char :=
  ((cs.dropWhile isJsWhitespace).reverse.dropWhile isJsWhitespace).reverse

/-- JavaScript `String.prototype.split(sep)` for a one-character separator. -/
def splitOnChar (sep : Char) : List Char → List (List Char)
  | [] => [[]]
  | c :: rest =>
    let r := splitOnChar sep rest
    if c == sep then [] :: r
    else
      match r with
      | [] => [[c]]
      | h :: t => (c :: h) :: t

/-- JavaScript `Array.prototype.join(sep)` with a one-character separator. -/
def joinWith (sep : Char) : List (List Char) → List Char
  | [] => []
  | [w] => w
  | w :: ws => w ++ sep :: joinWith sep ws

/-- Does the list start with `#`?  (JavaScript `startsWith('#')`.) -/
def startsHash : List Char → Bool
  | '#' :: _ => true
  | _ => false

/-- The regex `/^[#*\-\[\]`]/` of `extractTitle`: does the first character
disqualify the line from being used verbatim as a title? -/
def startsMarker : List Char → Bool
  | c :: _ => c == '#' || c == '*' || c == '-' || c == '[' || c == ']' || c == Char.ofNat 96
  | _ => false

/-!
The heading regexes `/^#\s+(.+)$/m` and `/^##\s+(.+)$/m`.

At a position where the literal hashes have just been consumed the engine
runs `\s+(.+)$` with greedy backtracking.  Let `w` be the maximal run of
white-space characters at that position and `t` the remainder.

* If `w` is empty, `\s+` fails and there is no match here.
* If `t` is non-empty, its head is non-white-space, hence not a line
  terminator, so with `\s+ = w` the subexpression `(.+)` consumes `t` up to
  the next line terminator and `$` succeeds there: the capture is that run.
* If `t` is empty (the input ends in white space), `\s+` gives characters
  back one at a time.  With `k` characters kept, the remainder is `w.drop k`;
  `(.+)` needs its head `w.get k` to be a non-terminator, and then consumes
  the maximal non-terminator run, after which `$` holds.  The first success
  is the largest `k ≤ |w| - 1` (with `k ≥ 1`) whose character is a
  non-terminator; every later character of `w` is then a terminator, so the
  capture is that single white-space character.
-/

/-- Degenerate branch of `\s+(.+)$`: the last non-terminator among the
white-space characters that `\s+` can give back (index ≥ 1), if any. -/
def wsBacktrack (w : List Char) : Option (List Char) :=
  match ((w.drop 1).filter (fun c => !isLineTerminator c)).getLast? with
  | some c => some [c]
  | none => none

/-- Match `\s+(.+)$` at the current position, returning the capture of
`(.+)` under JavaScript's greedy-backtracking semantics. -/
def afterHash (rest : List Char) : Option (List Char) :=
  let w := rest.takeWhile isJsWhitespace
  if w.isEmpty then none
  else
    match rest.drop w.length with
    | [] => wsBacktrack w
    | t => some (t.takeWhile (fun c => !isLineTerminator c))

/-- Match `#\s+(.+)$` at the current position (used at `^` anchors). -/
def h1At : List Char → Option (List Char)
  | '#' :: rest => afterHash rest
  | _ => none

/-- Match `##\s+(.+)$` at the current position (used at `^` anchors). -/
def h2At : List Char → Option (List Char)
  | '#' :: '#' :: rest => afterHash rest
  | _ => none

/-- Leftmost multiline search: try the anchored pattern at every line-start
position (the start of the input and every position following a line
terminator), returning the first capture. -/
def findAnchored (pat : List Char → Option (List Char)) :
    List Char → Bool → Option (List Char)
  | [], _ => none
  | c :: rest, atStart =>
    if atStart then
      match pat (c :: rest) with
      | some cap => some cap
      | none => findAnchored pat rest (isLineTerminator c)
    else findAnchored pat rest (isLineTerminator c)

/-- `content.match(/^#\s+(.+)$/m)`, capture of group 1. -/
def findH1 (cs : List Char) : Option (List Char) := findAnchored h1At cs true

/-- `content.match(/^##\s+(.+)$/m)`, capture of group 1. -/
def findH2 (cs : List Char) : Option (List Char) := findAnchored h2At cs true

/-- `word.charAt(0).toUpperCase() + word.slice(1)` (ASCII case mapping). -/
def capFirst : List Char → List Char
  | [] => []
  | c :: rest => c.toUpper :: rest

/-- `repoName.split('-').map(capitalize).join(' ')` over characters. -/
def formatChars (rn : List Char) : List Char :=
  joinWith ' ' ((splitOnChar '-' rn).map capFirst)

/-- Formats repo name like `shell-c` to `Shell C` (source: `formatRepoName`). -/
def formatRepoName (repoName : String) : String :=
  String.mk (formatChars repoName.data)

/-- `content.split('\n').filter(line => line.trim())` of `extractTitle`. -/
def titleLines (cs : List Char) : List (List Char) :=
  (splitOnChar '\n' cs).filter (fun l => !(jsTrim l).isEmpty)

/-- The test on the first non-blank (trimmed) line of `extractTitle`:
`firstLine.length > 0 && firstLine.length < 100 && !firstLine.match(/^[#*\-\[\]`]/)`. -/
def goodFirstLineB (f : List Char) : Bool :=
  decide (0 < jsLen f) && decide (jsLen f < 100) && !startsMarker f

/-- Body of `extractTitle` over characters: H1 capture, else H2 capture,
else the first non-blank line when it looks like a title, else the
formatted repo name. -/
def titleChars (cs rn : List Char) : List Char :=
  match findH1 cs with
  | some cap => jsTrim cap
  | none =>
    match findH2 cs with
    | some cap => jsTrim cap
    | none =>
      match titleLines cs with
      | [] => formatChars rn
      | l :: _ =>
        if goodFirstLineB (jsTrim l) then jsTrim l
        else formatChars rn

/-- Extracts the title from README content (source: `extractTitle`). -/
def extractTitle (content repoName : String) : String :=
  String.mk (titleChars content.data repoName.data)

/-!
Description extraction (`extractDescription` of the source).
-/

/-- Skip condition of the header scan: the trimmed line starts with `#` or
is empty. -/
def skipLineB (l : List Char) : Bool :=
  startsHash (jsTrim l) || (jsTrim l).isEmpty

/-- The `for (let i = 0; i < Math.min(5, lines.length); i++)` loop with
`break`: the start index is the number of leading skippable lines, looking
at most `fuel` (five) lines deep. -/
def startScan : Nat → List (List Char) → Nat
  | fuel + 1, l :: rest => if skipLineB l then startScan fuel rest + 1 else 0
  | _, _ => 0

/-- `description += (description ? ' ' : '') + line`. -/
def appendLine (acc line : List Char) : List Char :=
  acc ++ (if acc.isEmpty then [] else [' ']) ++ line

/-- Character class of the regex `[.!?]`. -/
def isSentencePunct (c : Char) : Bool :=
  c == '.' || c == '!' || c == '?'

/-- `description.match(/[.!?]\s/)`: index of the first sentence-ending
punctuation character that is immediately followed by a white-space
character.  (All involved characters are single UTF-16 code units, so the
character index agrees with JavaScript's `match(...).index`.) -/
def firstBoundary : List Char → Option Nat
  | c :: c' :: rest =>
    if isSentencePunct c && isJsWhitespace c' then some 0
    else (firstBoundary (c' :: rest)).map (· + 1)
  | _ => none

/-- `description.substring(0, sentenceEnd.index + 1).trim()` when the
boundary regex matches, the untruncated string otherwise. -/
def truncateAcc (d : List Char) : List Char :=
  match firstBoundary d with
  | some i => jsTrim (d.take (i + 1))
  | none => d

/-- The accumulation loop of `extractDescription`, from the start index on:
a heading stops it, a blank line before content is skipped, a blank line
after content stops it, a non-blank line is appended; when the accumulated
length passes 150 the result is (possibly) truncated at a sentence boundary
and the loop stops. -/
def accumLoop : List (List Char) → List Char → List Char
  | [], acc => acc
  | l :: rest, acc =>
    let line := jsTrim l
    if startsHash line then acc
    else if acc.isEmpty && line.isEmpty then accumLoop rest acc
    else if line.isEmpty then acc
    else
      let acc2 := appendLine acc line
      if 150 < jsLen acc2 then truncateAcc acc2 else accumLoop rest acc2

/-- Split into lines, compute the start index, run the accumulation loop:
the raw description before the Markdown cleanup. -/
def rawAccum (cs : List Char) : List Char :=
  let lines := splitOnChar '\n' cs
  accumLoop (lines.drop (startScan 5 lines)) []

/-!
The cleanup regex replacements, each a single global pass left to right:

* `/\[([^\]]+)\]\([^\)]+\)/g` → `$1`
* `/\*\*([^*]+)\*\*/g` → `$1`
* `/\*([^*]+)\*/g` → `$1`
* backtick inline code → `$1`

At a candidate position each pattern is deterministic (its character classes
exclude exactly the closing delimiter, so the greedy runs cannot usefully
backtrack); on a match the engine continues after the match, otherwise it
advances one character.  The scans are written with an explicit fuel, called
with the length of the input, which the remaining input never exceeds.
-/

/-- Try `\[([^\]]+)\]\([^\)]+\)` right after an opening `[`; return the
capture (link text) and the remainder after the match. -/
def tryLink (rest : List Char) : Option (List Char × List Char) :=
  let txt := rest.takeWhile (fun c => c ≠ ']')
  if txt.isEmpty then none
  else
    match rest.drop txt.length with
    | ']' :: '(' :: r2 =>
      let url := r2.takeWhile (fun c => c ≠ ')')
      if url.isEmpty then none
      else
        match r2.drop url.length with
        | ')' :: r3 => some (txt, r3)
        | _ => none
    | _ => none

/-- Global pass of the link replacement. -/
def replLinksGo : Nat → List Char → List Char
  | 0, cs => cs
  | fuel + 1, cs =>
    match cs with
    | [] => []
    | c :: rest =>
      if c == '[' then
        match tryLink rest with
        | some (txt, rem) => txt ++ replLinksGo fuel rem
        | none => c :: replLinksGo fuel rest
      else c :: replLinksGo fuel rest

/-- `replace(/\[([^\]]+)\]\([^\)]+\)/g, '$1')`. -/
def replaceLinks (cs : List Char) : List Char := replLinksGo cs.length cs

/-- Try a delimited span `d d [^d]+ d d` (two-character delimiter `d d`,
used for `**bold**`) right at the current position. -/
def tryDouble (d : Char) (cs : List Char) : Option (List Char × List Char) :=
  match cs with
  | c1 :: c2 :: rest =>
    if c1 == d && c2 == d then
      let inner := rest.takeWhile (fun c => c ≠ d)
      if inner.isEmpty then none
      else
        match rest.drop inner.length with
        | e1 :: e2 :: rem =>
          if e1 == d && e2 == d then some (inner, rem) else none
        | _ => none
    else none
  | _ => none

/-- Try a delimited span `d [^d]+ d` (one-character delimiter, used for
`*italic*` and inline code) right at the current position. -/
def trySingle (d : Char) (cs : List Char) : Option (List Char × List Char) :=
  match cs with
  | c1 :: rest =>
    if c1 == d then
      let inner := rest.takeWhile (fun c => c ≠ d)
      if inner.isEmpty then none
      else
        match rest.drop inner.length with
        | e1 :: rem => if e1 == d then some (inner, rem) else none
        | _ => none
    else none
  | _ => none

/-- Global pass replacing every match of `try` with its capture. -/
def replSpanGo (try_ : List Char → Option (List Char × List Char)) :
    Nat → List Char → List Char
  | 0, cs => cs
  | fuel + 1, cs =>
    match cs with
    | [] => []
    | c :: rest =>
      match try_ (c :: rest) with
      | some (inner, rem) => inner ++ replSpanGo try_ fuel rem
      | none => c :: replSpanGo try_ fuel rest

/-- `replace(/\*\*([^*]+)\*\*/g, '$1')`. -/
def replaceBold (cs : List Char) : List Char :=
  replSpanGo (tryDouble '*') cs.length cs

/-- `replace(/\*([^*]+)\*/g, '$1')`. -/
def replaceItalic (cs : List Char) : List Char :=
  replSpanGo (trySingle '*') cs.length cs

/-- Replacement of inline code spans delimited by backticks. -/
def replaceCode (cs : List Char) : List Char :=
  replSpanGo (trySingle (Char.ofNat 96)) cs.length cs

/-- The cleanup chain of `extractDescription`: links, bold, italic, inline
code, then trim. -/
def cleanChars (cs : List Char) : List Char :=
  jsTrim (replaceCode (replaceItalic (replaceBold (replaceLinks (rawAccum cs)))))

/-- Extracts a description from README content (source:
`extractDescription`); `none` models the source's `null`. -/
def extractDescription (content : String) : Option String :=
  let d := cleanChars content.data
  if d.isEmpty then none else some (String.mk d)

/-- Result record of the parser (source: `ReadmeData`). -/
structure ReadmeData where
  title : String
  description : Option String
  deriving Repr, DecidableEq

/-- Parses README content and extracts title and description (source:
`parseReadme`). -/
def parseReadme (content repoName : String) : ReadmeData :=
  { title := extractTitle content repoName
    description := extractDescription content }

/-!
Claim-side definitions.  The next two definitions follow the words of the
specification ("first line in the document matching a level-1 heading"),
reading the heading search line by line, to be compared with the source's
multiline regex search `findH1`/`findH2`.
-/

/-- Modelled from the spec's words for comparison: the capture of the first
individual line that matches the H1 pattern. -/
def firstLineH1 (cs : List Char) : Option (List Char) :=
  (splitOnChar '\n' cs).findSome? h1At

/-- Modelled from the spec's words for comparison: the capture of the first
individual line that matches the H2 pattern. -/
def firstLineH2 (cs : List Char) : Option (List Char) :=
  (splitOnChar '\n' cs).findSome? h2At

/-- Does the link pattern `\[([^\]]+)\]\([^\)]+\)` match anywhere in the
list (i.e. does link syntax appear verbatim)? -/
def hasLinkMatch : List Char → Bool
  | [] => false
  | c :: rest => (c == '[' && (tryLink rest).isSome) || hasLinkMatch rest

/-- Is the fourth rule of the title extraction reached?  No H1 match, no H2
match, and no usable first non-blank line. -/
def fourthRuleB (cs : List Char) : Bool :=
  (findH1 cs).isNone && (findH2 cs).isNone &&
  (match titleLines cs with
   | [] => true
   | l :: _ => !goodFirstLineB (jsTrim l))

/-- A 101-character sentence used by the truncation example. -/
def exASentence : List Char := List.replicate 100 'a' ++ ['.']

/-- Content whose accumulated description passes 150 characters and is cut
back at the first sentence boundary. -/
def exLongContent : String :=
  String.mk (exASentence ++ '\n' :: (List.replicate 50 'b' ++ ". tail".data))

/-- Content whose indented heading lines steer the description extraction
but are invisible to the title extraction. -/
def exIndented : String := "    # Skipped\nBody one.\n  # Stopper\nTail text."

/-!
Helper lemmas.
-/

theorem splitOnChar_ne_nil (sep : Char) (cs : List Char) : splitOnChar sep cs ≠ [] := by
  cases cs with
  | nil => simp [splitOnChar]
  | cons c rest =>
    simp only [splitOnChar]
    split
    · simp
    · split <;> simp

theorem joinWith_eq_nil_iff (sep : Char) (ws : List (List Char)) :
    joinWith sep ws = [] ↔ ws = [] ∨ ws = [[]] := by
  match ws with
  | [] => simp [joinWith]
  | [w] => simp [joinWith]
  | w :: x :: t => simp [joinWith]

theorem splitOnChar_eq_single_nil_iff (sep : Char) (cs : List Char) :
    splitOnChar sep cs = [[]] ↔ cs = [] := by
  cases cs with
  | nil => simp [splitOnChar]
  | cons c rest =>
    simp only [splitOnChar]
    constructor
    · intro h
      exfalso
      revert h
      split
      · intro h
        exact splitOnChar_ne_nil sep rest (by simpa using h)
      · split <;> simp_all
    · intro h
      exact absurd h (by simp)

theorem capFirst_eq_nil_iff (l : List Char) : capFirst l = [] ↔ l = [] := by
  cases l <;> simp [capFirst]

theorem formatChars_ne_nil (rn : List Char) (h : rn ≠ []) : formatChars rn ≠ [] := by
  intro hc
  unfold formatChars at hc
  rcases (joinWith_eq_nil_iff _ _).mp hc with h1 | h1
  · exact splitOnChar_ne_nil '-' rn (by simpa using h1)
  · rcases List.map_eq_cons_iff.mp h1 with ⟨a, t, hsplit, hca, ht⟩
    have hta : t = [] := by simpa using ht
    have ha : a = [] := (capFirst_eq_nil_iff a).mp hca
    rw [hta, ha] at hsplit
    exact h ((splitOnChar_eq_single_nil_iff '-' rn).mp hsplit)

theorem jsLen_nil : jsLen [] = 0 := rfl

theorem ne_nil_of_jsLen_pos {l : List Char} (h : 0 < jsLen l) : l ≠ [] := by
  intro hl
  rw [hl] at h
  simp [jsLen] at h

theorem data_ne_nil_of_ne_empty (s : String) (h : s ≠ "") : s.data ≠ [] := by
  intro hd
  apply h
  cases s with
  | mk d => cases hd; rfl

theorem mk_ne_empty_of_ne_nil (l : List Char) (h : l ≠ []) : String.mk l ≠ "" := by
  intro he
  exact h (congrArg String.data he)

/-!
Claim theorems.
-/

/-- C1, counterexample: the title is the empty string for empty content and
an empty fallback name (`formatRepoName('')` is empty), and also for the
content `"#  "` with a non-empty fallback name, where the H1 regex matches
with a capture consisting of one space (the greedy `\s+` backtracks one
character so that `(.+)` can consume the final space) which trims to the
empty string.  This refutes "for every content string and every fallback
repoName string, the title is a non-empty string". -/
theorem c1_title_empty_counterexample :
    (parseReadme "" "").title = "" ∧ (parseReadme "#  " "some-repo").title = "" := by
  exact ⟨rfl, rfl⟩

/-- C1, amended: the title is non-empty whenever the fallback repoName is
non-empty and any H1/H2 regex capture of the content has non-empty trimmed
text.  (The two exceptions are exactly the counterexample's: an empty
repoName reaching the fallback rule, and a heading capture that trims to
the empty string.) -/
theorem c1_title_nonempty_amended (content repoName : String)
    (hr : repoName ≠ "")
    (h1 : ∀ cap, findH1 content.data = some cap → jsTrim cap ≠ [])
    (h2 : ∀ cap, findH2 content.data = some cap → jsTrim cap ≠ []) :
    (parseReadme content repoName).title ≠ "" := by
  have hrn : repoName.data ≠ [] := data_ne_nil_of_ne_empty repoName hr
  show extractTitle content repoName ≠ ""
  unfold extractTitle
  apply mk_ne_empty_of_ne_nil
  unfold titleChars
  split
  · next cap hf1 => exact h1 cap hf1
  · next hf1 =>
    split
    · next cap hf2 => exact h2 cap hf2
    · next hf2 =>
      split
      · exact formatChars_ne_nil _ hrn
      · next l t hl =>
        split
        · next hgood =>
          unfold goodFirstLineB at hgood
          rw [Bool.and_eq_true, Bool.and_eq_true] at hgood
          exact ne_nil_of_jsLen_pos (of_decide_eq_true hgood.1.1)
        · exact formatChars_ne_nil _ hrn

/-- C1, witness for the amended theorem at content `"# Hello"` and fallback
`"docs"`. -/
theorem c1_title_nonempty_amended_witness : (parseReadme "# Hello" "docs").title ≠ "" :=
  c1_title_nonempty_amended "# Hello" "docs" (by decide)
    (fun cap hcap => by
      have h : some ("Hello".data) = some cap := hcap
      rw [← Option.some.inj h]
      decide)
    (fun cap hcap => nomatch (show (none : Option (List Char)) = some cap from hcap))

/-- C2, counterexample: for the content `"#\n## Foo"` no individual line
matches the H1 pattern and the first (only) line matching the H2 pattern
has trimmed trailing text `"Foo"`, so the claim's line-based first-match
rule demands the title `"Foo"`; but the source's H1 regex `/^#\s+(.+)$/m`
matches across the line break (`\s` includes the newline), capturing
`"## Foo"`, which becomes the title. -/
theorem c2_linewise_counterexample :
    firstLineH1 "#\n## Foo".data = none ∧
    (firstLineH2 "#\n## Foo".data).map (fun c => String.mk (jsTrim c)) = some "Foo" ∧
    (parseReadme "#\n## Foo" "any").title = "## Foo" ∧
    ("## Foo" : String) ≠ "Foo" := by
  refine ⟨rfl, rfl, rfl, by decide⟩

/-- C2, amended: title extraction is first-match-wins over the multiline
regex searches themselves (whose `\s+` may span a line break, so the
captured text need not lie on the line of the matching `#`): if the H1
regex matches, the title is its trimmed first capture; otherwise if the H2
regex matches, the title is its trimmed capture.  Content starting with
`"# My Title\n"` still always yields the title `"My Title"`. -/
theorem c2_title_first_match_amended (content repoName : String) :
    (∀ cap, findH1 content.data = some cap →
       extractTitle content repoName = String.mk (jsTrim cap)) ∧
    (findH1 content.data = none → ∀ cap, findH2 content.data = some cap →
       extractTitle content repoName = String.mk (jsTrim cap)) ∧
    (∀ rest : String, extractTitle ("# My Title\n" ++ rest) repoName = "My Title") := by
  refine ⟨?_, ?_, ?_⟩
  · intro cap h
    unfold extractTitle titleChars
    rw [h]
  · intro h1 cap h2
    unfold extractTitle titleChars
    rw [h1, h2]
  · intro rest
    rfl

/-- C2, witness for the amended theorem at content `"# Hi"`. -/
theorem c2_title_first_match_amended_witness :
    extractTitle "# Hi" "r" = "Hi" ∧ extractTitle "x\n## Two" "r" = "Two" :=
  ⟨(c2_title_first_match_amended "# Hi" "r").1 "Hi".data rfl,
   (c2_title_first_match_amended "x\n## Two" "r").2.1 rfl "Two".data rfl⟩

/-- C3: when the fourth rule is reached (no H1 match, no H2 match, no
usable first non-blank line — in particular for empty content), the title
is the fallback name split on `-`, each segment's first character
capitalized with the rest unchanged, joined with single spaces; with the
spec's examples `shell-c` → `Shell C` and `unix-shell-basics` →
`Unix Shell Basics`. -/
theorem c3_title_fallback_formatting :
    (∀ (content repoName : String), fourthRuleB content.data = true →
       (parseReadme content repoName).title = formatRepoName repoName) ∧
    extractTitle "" "shell-c" = "Shell C" ∧
    formatRepoName "unix-shell-basics" = "Unix Shell Basics" := by
  refine ⟨?_, rfl, rfl⟩
  intro content repoName h
  unfold fourthRuleB at h
  rw [Bool.and_eq_true, Bool.and_eq_true] at h
  obtain ⟨⟨hf1, hf2⟩, hrest⟩ := h
  rw [Option.isNone_iff_eq_none] at hf1 hf2
  show extractTitle content repoName = formatRepoName repoName
  unfold extractTitle titleChars
  rw [hf1, hf2]
  simp only []
  cases hl : titleLines content.data with
  | nil => rfl
  | cons l t =>
    rw [hl] at hrest
    simp only at hrest
    rw [Bool.not_eq_true'] at hrest
    simp only [hrest]
    rfl

/-- C3, witness: the general fallback rule applied to empty content and the
fallback name `"shell-c"`. -/
theorem c3_title_fallback_formatting_witness :
    (parseReadme "" "shell-c").title = formatRepoName "shell-c" :=
  c3_title_fallback_formatting.1 "" "shell-c" (by decide)

/-- C4: with no H1 and no H2 regex match, the title is the first non-blank
line, trimmed, taken verbatim — provided its length is strictly between 0
and 100 (UTF-16 units, as JavaScript's `length`) and its first character is
none of `#`, `*`, `-`, `[`, `]`, backtick; when that condition fails (or
there is no non-blank line) extraction falls through to the fallback-name
rule, with no step that strips the marker and retries. -/
theorem c4_title_first_line_rule (content repoName : String)
    (hf1 : findH1 content.data = none) (hf2 : findH2 content.data = none) :
    (titleLines content.data = [] →
       (parseReadme content repoName).title = formatRepoName repoName) ∧
    (∀ l t, titleLines content.data = l :: t →
       (0 < jsLen (jsTrim l) → jsLen (jsTrim l) < 100 → startsMarker (jsTrim l) = false →
          (parseReadme content repoName).title = String.mk (jsTrim l)) ∧
       ((jsLen (jsTrim l) = 0 ∨ 100 ≤ jsLen (jsTrim l) ∨ startsMarker (jsTrim l) = true) →
          (parseReadme content repoName).title = formatRepoName repoName)) := by
  have hbase : (parseReadme content repoName).title =
      String.mk (match titleLines content.data with
        | [] => formatChars repoName.data
        | l :: _ => if goodFirstLineB (jsTrim l) then jsTrim l else formatChars repoName.data) := by
    show extractTitle content repoName = _
    unfold extractTitle titleChars
    rw [hf1, hf2]
  constructor
  · intro hl
    rw [hbase, hl]
    rfl
  · intro l t hl
    rw [hl] at hbase
    simp only [] at hbase
    constructor
    · intro hpos hlt hmark
      have hgood : goodFirstLineB (jsTrim l) = true := by
        unfold goodFirstLineB
        rw [hmark]
        simp [hpos, hlt]
      rw [hbase, hgood]
      rfl
    · intro hbad
      have hgood : goodFirstLineB (jsTrim l) = false := by
        unfold goodFirstLineB
        rcases hbad with h | h | h
        · simp [h]
        · simp [Nat.not_lt_of_le h]
        · simp [h]
      rw [hbase, hgood]
      rfl

/-- C4, witness at the spec's example content `"A Simple Guide"` (no
heading; usable first line) and at `"- bullet"` (structural marker; falls
through to the fallback). -/
theorem c4_title_first_line_rule_witness :
    (parseReadme "A Simple Guide" "repo-x").title = "A Simple Guide" ∧
    (parseReadme "- bullet" "repo-x").title = formatRepoName "repo-x" :=
  ⟨((c4_title_first_line_rule "A Simple Guide" "repo-x" rfl rfl).2
      "A Simple Guide".data [] rfl).1 (by decide) (by decide) (by decide),
   ((c4_title_first_line_rule "- bullet" "repo-x" rfl rfl).2
      "- bullet".data [] rfl).2 (Or.inr (Or.inr (by decide)))⟩

/-- C5: the start index of the description extraction is a bounded prefix
scan, not a filter: over the first five lines it equals the length of the
longest prefix of skippable (blank or `#`-starting after trim) lines,
halting at the first non-skippable line; and for
`"# Title\n\nThis is the description."` the heading and the blank line are
skipped and the description is the third line. -/
theorem c5_description_start_scan :
    (∀ lines : List (List Char),
       startScan 5 lines = ((lines.take 5).takeWhile skipLineB).length) ∧
    extractDescription "# Title\n\nThis is the description." = some "This is the description." := by
  constructor
  · have general : ∀ (fuel : Nat) (lines : List (List Char)),
        startScan fuel lines = ((lines.take fuel).takeWhile skipLineB).length := by
      intro fuel
      induction fuel with
      | zero => intro lines; cases lines <;> simp [startScan]
      | succ n ih =>
        intro lines
        cases lines with
        | nil => simp [startScan]
        | cons l rest =>
          rw [List.take_succ_cons, List.takeWhile]
          cases hs : skipLineB l with
          | true => simp [startScan, hs, ih, Nat.add_comm]
          | false => simp [startScan, hs]
    exact general 5
  · rfl

/-- C6: the accumulation rules of the description loop — a heading line
stops it at once, a blank line before any content is skipped, a blank line
after content stops it, and a non-blank (trimmed) line is appended
separated by a single space (after which the loop continues only while the
accumulated length is at most 150); with two end-to-end instances. -/
theorem c6_description_accumulation_rules :
    (∀ l rest acc, startsHash (jsTrim l) = true → accumLoop (l :: rest) acc = acc) ∧
    (∀ l rest acc, jsTrim l = [] → acc = [] → accumLoop (l :: rest) acc = accumLoop rest acc) ∧
    (∀ l rest acc, jsTrim l = [] → acc ≠ [] → accumLoop (l :: rest) acc = acc) ∧
    (∀ l rest acc, startsHash (jsTrim l) = false → jsTrim l ≠ [] →
       accumLoop (l :: rest) acc =
         (if 150 < jsLen (appendLine acc (jsTrim l)) then truncateAcc (appendLine acc (jsTrim l))
          else accumLoop rest (appendLine acc (jsTrim l)))) ∧
    extractDescription "# T\n\n\nHello\nWorld\n\nMore" = some "Hello World" ∧
    extractDescription "\n\n\n\n\n\n\nHi there" = some "Hi there" := by
  refine ⟨?_, ?_, ?_, ?_, rfl, rfl⟩
  · intro l rest acc h
    simp only [accumLoop, h]
    rfl
  · intro l rest acc hl ha
    simp only [accumLoop, hl, ha]
    rfl
  · intro l rest acc hl ha
    have ha' : acc.isEmpty = false := by
      cases acc with
      | nil => exact absurd rfl ha
      | cons c cs => rfl
    simp only [accumLoop, hl, ha']
    rfl
  · intro l rest acc hh hl
    have hl' : (jsTrim l).isEmpty = false := by
      cases he : jsTrim l with
      | nil => exact absurd he hl
      | cons c cs => rfl
    simp only [accumLoop, hh, hl']
    simp [Bool.and_eq_false_iff, hl']

/-- C6, witness: the four rules applied at concrete lines and accumulator
states. -/
theorem c6_description_accumulation_rules_witness :
    accumLoop ["# h".data] "seen".data = "seen".data ∧
    accumLoop ["".data, "b".data] [] = accumLoop ["b".data] [] ∧
    accumLoop ["".data] "seen".data = "seen".data ∧
    accumLoop ["hi".data] "seen".data =
      (if 150 < jsLen (appendLine "seen".data (jsTrim "hi".data))
       then truncateAcc (appendLine "seen".data (jsTrim "hi".data))
       else accumLoop [] (appendLine "seen".data (jsTrim "hi".data))) :=
  ⟨c6_description_accumulation_rules.1 "# h".data [] "seen".data (by decide),
   c6_description_accumulation_rules.2.1 "".data ["b".data] [] (by decide) rfl,
   c6_description_accumulation_rules.2.2.1 "".data [] "seen".data (by decide) (by decide),
   c6_description_accumulation_rules.2.2.2.1 "hi".data [] "seen".data (by decide) (by decide)⟩

set_option maxRecDepth 20000 in
/-- C7: the sentence-boundary truncation — when the accumulation has no
`.`/`!`/`?` followed by white space it is kept untruncated; when it has
one, the string is cut at the first such occurrence, inclusive of the
punctuation; whenever an append pushes the length beyond 150 the loop stops
with the (possibly truncated) accumulation; and an end-to-end instance
where a 158-character accumulation is cut back to its first sentence. -/
theorem c7_description_truncation :
    (∀ d : List Char, firstBoundary d = none → truncateAcc d = d) ∧
    (∀ d i, firstBoundary d = some i → truncateAcc d = jsTrim (d.take (i + 1))) ∧
    (∀ l rest acc, startsHash (jsTrim l) = false → jsTrim l ≠ [] →
       150 < jsLen (appendLine acc (jsTrim l)) →
       accumLoop (l :: rest) acc = truncateAcc (appendLine acc (jsTrim l))) ∧
    extractDescription exLongContent = some (String.mk exASentence) := by
  refine ⟨?_, ?_, ?_, rfl⟩
  · intro d h
    unfold truncateAcc
    rw [h]
  · intro d i h
    unfold truncateAcc
    rw [h]
  · intro l rest acc hh hl hlen
    have hl' : (jsTrim l).isEmpty = false := by
      cases he : jsTrim l with
      | nil => exact absurd he hl
      | cons c cs => rfl
    simp only [accumLoop, hh, hl']
    simp [Bool.and_eq_false_iff, hl', hlen]

set_option maxRecDepth 20000 in
/-- C7, witness: truncation applied at concrete accumulations (one with a
boundary, one without), and the loop-stopping rule at a 160-character
line. -/
theorem c7_description_truncation_witness :
    truncateAcc "ab".data = "ab".data ∧
    truncateAcc "a. b".data = jsTrim ("a. b".data.take 2) ∧
    accumLoop [List.replicate 160 'c'] [] =
      truncateAcc (appendLine [] (jsTrim (List.replicate 160 'c'))) :=
  ⟨c7_description_truncation.1 "ab".data rfl,
   c7_description_truncation.2.1 "a. b".data 1 rfl,
   c7_description_truncation.2.2.1 (List.replicate 160 'c') [] [] (by decide) (by decide)
     (by decide)⟩

/-- C8, counterexample: for the content `"[a]*(*u)"` the link pass finds no
match (no `(` directly after `]`), but the later italic pass rewrites
`*(*` to `(`, assembling the link syntax `[a](u)` — which is returned
verbatim as the description.  This refutes "for every input, link syntax
`[text](url)` never appears verbatim in the returned description". -/
theorem c8_decoration_survives_counterexample :
    extractDescription "[a]*(*u)" = some "[a](u)" ∧
    hasLinkMatch "[a](u)".data = true := by
  exact ⟨rfl, rfl⟩

/-- C8, amended: the post-processing is a single global replacement pass
per decoration, applied in the order links, bold, italic, inline code, each
replacing every match with its inner text, followed by a trim; decorations
are thus stripped when no pass re-creates syntax for an earlier (or its
own) pass — as in the instance — but a created or surviving decoration is
returned verbatim. -/
theorem c8_cleanup_single_pass_amended :
    (∀ (content : String) (d : String), extractDescription content = some d →
       d.data = jsTrim (replaceCode (replaceItalic (replaceBold (replaceLinks
         (rawAccum content.data)))))) ∧
    extractDescription "# T\n\nSee **bold** *ital* `code` [text](url) now." =
      some "See bold ital code text now." := by
  constructor
  · intro content d h
    unfold extractDescription at h
    simp only [] at h
    split at h
    · exact absurd h (by simp)
    · have := Option.some.inj h
      rw [← this]
      rfl
  · rfl

/-- C8, witness for the amended theorem at the instance content. -/
theorem c8_cleanup_single_pass_amended_witness :
    ("See bold ital code text now." : String).data =
      jsTrim (replaceCode (replaceItalic (replaceBold (replaceLinks
        (rawAccum "# T\n\nSee **bold** *ital* `code` [text](url) now.".data))))) :=
  c8_cleanup_single_pass_amended.1 "# T\n\nSee **bold** *ital* `code` [text](url) now."
    "See bold ital code text now." rfl

/-- C9: the parser (a total function — the embedding has no failure cases)
returns `none` for the description exactly when the cleaned accumulated
string is empty, and a non-empty string otherwise (never the empty string);
content with only heading lines yields `none`. -/
theorem c9_description_none_iff_empty :
    (∀ content : String,
       extractDescription content = none ↔ cleanChars content.data = []) ∧
    (∀ (content : String) (s : String), extractDescription content = some s → s ≠ "") ∧
    extractDescription "# A\n## B\n### C" = none := by
  refine ⟨?_, ?_, rfl⟩
  · intro content
    unfold extractDescription
    simp only []
    split
    · next he => simpa [List.isEmpty_iff] using he
    · next he =>
      constructor
      · intro h
        exact absurd h (by simp)
      · intro h
        rw [List.isEmpty_iff] at he
        exact absurd h he
  · intro content s h
    unfold extractDescription at h
    simp only [] at h
    split at h
    · exact absurd h (by simp)
    · next he =>
      rw [← Option.some.inj h]
      have hne : cleanChars content.data ≠ [] := by
        simpa [List.isEmpty_iff] using he
      exact mk_ne_empty_of_ne_nil _ hne

/-- C9, witness: the some-case applied at the content `"hello"`. -/
theorem c9_description_none_iff_empty_witness :
    extractDescription "hello" = some "hello" ∧ ("hello" : String) ≠ "" :=
  ⟨rfl, c9_description_none_iff_empty.2.1 "hello" "hello" rfl⟩

/-- C10: a whitespace-indented heading line is treated as a heading by the
description extraction — the loop trims before the `#` check, so it
terminates accumulation (first conjunct, for every tail and accumulator)
and is skipped by the prefix scan — yet it can never supply the title,
whose regexes only anchor at literal line starts: for `exIndented` both
heading searches fail, the first-line rule rejects the indented `#`, and
the title falls back to the formatted repo name while the description stops
at the indented `"  # Stopper"`. -/
theorem c10_indented_heading_effects :
    (∀ rest acc, accumLoop ("   # x".data :: rest) acc = acc) ∧
    (∀ repoName : String, extractTitle "   # x" repoName = formatRepoName repoName) ∧
    startScan 5 (splitOnChar '\n' exIndented.data) = 1 ∧
    findH1 exIndented.data = none ∧
    findH2 exIndented.data = none ∧
    parseReadme exIndented "my-repo" =
      { title := "My Repo", description := some "Body one." } := by
  refine ⟨?_, ?_, rfl, rfl, rfl, rfl⟩
  · intro rest acc
    rfl
  · intro repoName
    rfl

end ReadmeParser
